import Mathlib

/-
Verification of the character-encoding analysis engine of the moji digital
app (an educational tool showing how characters are represented as bytes
under UTF-8 and Shift-JIS).

The engine is embedded shallowly from the source:
  - `toUTF8Array`, `toSJISArray`, `toHexString`, `toBinaryString`,
    `analyzeText` and the `MojibakeSimulator` state computation follow the
    inlined module (src/unnamed/part_000);
  - `toSJISArrayM` / `analyzeTextM` follow the standalone module
    (src/utils/encoding.js).
JavaScript strings iterated with `Array.from` are modelled as Lean
`String`s iterated over `String.data` (both enumerate Unicode code
points).  The external legacy codec (`window.Encoding`, the
encoding-japanese library) is modelled as an abstract record of
conversion functions, `Option`-valued where the source wraps calls in
try/catch (`none` models a thrown exception); absence of the library is
`(none : Option EncodingLib)`.
-/

-- ==========================================
-- Formatting helpers (JS Number.toString(base), padStart, join(' '))
-- ==========================================

/-- Digit character of `d`, lowercase letters for 10..15 (JS `toString(16)` digits). -/
def digitCharL (d : Nat) : Char :=
  if d < 10 then Char.ofNat (48 + d) else Char.ofNat (87 + d)

/-- Base-`base` digit list of `n` (most significant first), as produced by
JS `n.toString(base)`.  `fuel` bounds the recursion; `fuel = n + 1` always
suffices since the argument strictly decreases. -/
def toBaseDigits (base : Nat) (fuel : Nat) (n : Nat) : List Char :=
  match fuel with
  | 0 => []
  | fuel + 1 =>
    if n < base then [digitCharL n]
    else toBaseDigits base fuel (n / base) ++ [digitCharL (n % base)]

/-- JS `String.prototype.padStart(len, pad)` on a character list. -/
def padStartChars (len : Nat) (pad : Char) (l : List Char) : List Char :=
  List.replicate (len - l.length) pad ++ l

/-- `b.toString(16).toUpperCase().padStart(2, '0')` from `toHexString`. -/
def byteToHexStr (b : Nat) : String :=
  String.mk (padStartChars 2 '0' ((toBaseDigits 16 (b + 1) b).map Char.toUpper))

/-- `b.toString(2).padStart(8, '0')` from `toBinaryString`. -/
def byteToBinStr (b : Nat) : String :=
  String.mk (padStartChars 8 '0' (toBaseDigits 2 (b + 1) b))

/-- JS `Array.prototype.join(' ')`. -/
def joinSpace : List String → String
  | [] => ""
  | x :: xs => xs.foldl (fun acc s => acc ++ " " ++ s) x

/-- `toHexString` from src/unnamed/part_000: two-digit uppercase hex per
byte, space-separated.  The source's `if (!byteArray) return ""` null
guard is handled at call sites, which pass `sjis || []`. -/
def toHexString (byteArray : List Nat) : String :=
  joinSpace (byteArray.map byteToHexStr)

/-- `toBinaryString` from src/unnamed/part_000: 8-digit zero-padded binary
per byte, space-separated. -/
def toBinaryString (byteArray : List Nat) : String :=
  joinSpace (byteArray.map byteToBinStr)

-- ==========================================
-- UTF-8 encoder (the TextEncoder collaborator of `toUTF8Array`)
-- ==========================================

/-- Standard UTF-8 encoding of one Unicode scalar value, the behaviour of
the `TextEncoder` web API used by `toUTF8Array`. -/
def utf8EncodeCharBytes (c : Char) : List Nat :=
  let n := c.toNat
  if n < 0x80 then [n]
  else if n < 0x800 then
    [0xC0 ||| (n >>> 6), 0x80 ||| (n &&& 0x3F)]
  else if n < 0x10000 then
    [0xE0 ||| (n >>> 12), 0x80 ||| ((n >>> 6) &&& 0x3F), 0x80 ||| (n &&& 0x3F)]
  else
    [0xF0 ||| (n >>> 18), 0x80 ||| ((n >>> 12) &&& 0x3F),
     0x80 ||| ((n >>> 6) &&& 0x3F), 0x80 ||| (n &&& 0x3F)]

/-- `toUTF8Array` from src/unnamed/part_000 (and src/utils/encoding.js):
`Array.from(new TextEncoder().encode(str))`. -/
def toUTF8Array (str : String) : List Nat :=
  str.data.flatMap utf8EncodeCharBytes

-- ==========================================
-- The legacy codec collaborator (window.Encoding) and `toSJISArray`
-- ==========================================

/-- Interface of the external legacy codec library (`window.Encoding`,
encoding-japanese).  `none` results model a thrown exception of the
corresponding `Encoding.convert` call; the functions themselves are
abstract. -/
structure EncodingLib where
  stringToCode : String → List Nat
  convertToSJIS : List Nat → Option (List Nat)
  convertFromSJIS : List Nat → Option String
  convertFromUTF8 : List Nat → Option String

/-- `toSJISArray` from src/unnamed/part_000: `null` when the library is
absent or any conversion throws; otherwise the SJIS byte array.  The
reverse conversion `reversed` is compared against `str` but, as in the
source, both branches of that comparison return `sjisArray`. -/
def toSJISArray (lib? : Option EncodingLib) (str : String) : Option (List Nat) :=
  match lib? with
  | none => none
  | some lib =>
    match lib.convertToSJIS (lib.stringToCode str) with
    | none => none
    | some sjisArray =>
      match lib.convertFromSJIS sjisArray with
      | none => none
      | some reversed =>
        if reversed ≠ str then some sjisArray else some sjisArray

-- ==========================================
-- Character records and `analyzeText` (src/unnamed/part_000)
-- ==========================================

/-- The `utf8` field of a record produced by `analyzeText` in
src/unnamed/part_000. -/
structure Utf8View where
  bytes : List Nat
  byteCount : Nat
  hex : String
  binary : String
deriving DecidableEq, Repr

/-- The `sjis` field of a record produced by `analyzeText` in
src/unnamed/part_000.  `byteCount` models the source's `length` field. -/
structure SjisView where
  bytes : List Nat
  byteCount : Nat
  hex : String
  binary : String
  isValid : Bool
deriving DecidableEq, Repr

/-- One per-character record of `analyzeText` in src/unnamed/part_000. -/
structure CharRecord where
  id : Nat
  char : String
  codePoint : String
  utf8 : Utf8View
  sjis : SjisView
deriving DecidableEq, Repr

/-- `char.codePointAt(0)` on a non-empty string: its first code point. -/
def codePointAt0 (char : String) : Nat :=
  (char.data.headD (Char.ofNat 0)).toNat

/-- `'U+' + char.codePointAt(0).toString(16).toUpperCase().padStart(4, '0')`. -/
def codePointLabel (char : String) : String :=
  "U+" ++ String.mk (padStartChars 4 '0'
    ((toBaseDigits 16 (codePointAt0 char + 1) (codePointAt0 char)).map Char.toUpper))

/-- Body of the arrow function mapped over the characters in
`analyzeText` (src/unnamed/part_000), with the `toSJISArray` result
passed in: computes `isSjisValid` and assembles the record. -/
def buildRecord (index : Nat) (char : String) (sjis : Option (List Nat)) : CharRecord :=
  let utf8 := toUTF8Array char
  let isSjisValid : Bool :=
    match sjis with
    | none => false
    | some bs => !(bs.length == 1 && bs.getD 0 0 == 0x3F && char != "?")
  { id := index
    char := char
    codePoint := codePointLabel char
    utf8 :=
      { bytes := utf8
        byteCount := utf8.length
        hex := toHexString utf8
        binary := toBinaryString utf8 }
    sjis :=
      { bytes := sjis.getD []
        byteCount := if isSjisValid then (sjis.getD []).length else 0
        hex := toHexString (sjis.getD [])
        binary := toBinaryString (sjis.getD [])
        isValid := isSjisValid } }

/-- One step of `chars.map((char, index) => ...)` in `analyzeText`. -/
def analyzeChar (lib? : Option EncodingLib) (index : Nat) (c : Char) : CharRecord :=
  buildRecord index (String.singleton c) (toSJISArray lib? (String.singleton c))

/-- `chars.map((char, index) => ...)` with explicit index threading. -/
def analyzeMap (lib? : Option EncodingLib) : Nat → List Char → List CharRecord
  | _, [] => []
  | i, c :: cs => analyzeChar lib? i c :: analyzeMap lib? (i + 1) cs

/-- `analyzeText` from src/unnamed/part_000: `[]` on empty input, else one
record per element of `Array.from(text)` (code-point segmentation). -/
def analyzeText (lib? : Option EncodingLib) (text : String) : List CharRecord :=
  if text = "" then []
  else analyzeMap lib? 0 text.data

-- ==========================================
-- Aggregates (ConverterView, src/unnamed/part_000)
-- ==========================================

/-- `analysis.reduce((acc, item) => acc + item.utf8.length, 0)`. -/
def totalUtf8 (analysis : List CharRecord) : Nat :=
  analysis.foldl (fun acc item => acc + item.utf8.byteCount) 0

/-- `analysis.reduce((acc, item) => acc + item.sjis.length, 0)`. -/
def totalSjis (analysis : List CharRecord) : Nat :=
  analysis.foldl (fun acc item => acc + item.sjis.byteCount) 0

/-- `analysis.every(item => item.sjis.isValid)`. -/
def canFullSjis (analysis : List CharRecord) : Bool :=
  analysis.all (fun item => item.sjis.isValid)

-- ==========================================
-- MojibakeSimulator (src/unnamed/part_000)
-- ==========================================

/-- The `(utf8ToSjis, sjisToUtf8)` state pair of `MojibakeSimulator` after
its effect runs.  Both states start as `''`; the effect returns early
(leaving them blank) when the input is empty or `window.Encoding` is
absent.  Direction A decodes the UTF-8 bytes of the input with the SJIS
rules, direction B decodes the SJIS bytes with the UTF-8 rules; a thrown
decode is caught and shown as the conversion-error string, and a missing
or empty SJIS byte array as the not-representable string. -/
def mojibakeSimulator (lib? : Option EncodingLib) (input : String) : String × String :=
  match lib? with
  | none => ("", "")
  | some lib =>
    if input = "" then ("", "")
    else
      let utf8Bytes := toUTF8Array input
      let utf8ToSjis :=
        match lib.convertFromSJIS utf8Bytes with
        | some garbled => garbled
        | none => "（変換エラー）"
      let sjisToUtf8 :=
        match toSJISArray (some lib) input with
        | some sjisBytes =>
          if sjisBytes.length > 0 then
            match lib.convertFromUTF8 sjisBytes with
            | some garbled => garbled
            | none => "（変換エラー）"
          else "（Shift-JIS非対応）"
        | none => "（Shift-JIS非対応）"
      (utf8ToSjis, sjisToUtf8)

-- ==========================================
-- The standalone module (src/utils/encoding.js)
-- ==========================================

/-- `toSJISArray` from src/utils/encoding.js: returns `[]` when the
library is absent, and calls `Encoding.convert` with no try/catch, so a
thrown conversion (`none`) propagates to the caller. -/
def toSJISArrayM (lib? : Option EncodingLib) (str : String) : Option (List Nat) :=
  match lib? with
  | none => some []
  | some lib => lib.convertToSJIS (lib.stringToCode str)

/-- A byte view of the src/utils/encoding.js records (no length field). -/
structure ByteViewM where
  bytes : List Nat
  hex : String
  binary : String
deriving DecidableEq, Repr

/-- One per-character record of `analyzeText` in src/utils/encoding.js
(no `id`, no lengths, no `isValid`). -/
structure CharRecordM where
  char : String
  codePoint : String
  utf8 : ByteViewM
  sjis : ByteViewM
deriving DecidableEq, Repr

/-- Record assembly of src/utils/encoding.js with the SJIS bytes passed in. -/
def buildRecordM (char : String) (sjis : List Nat) : CharRecordM :=
  let utf8 := toUTF8Array char
  { char := char
    codePoint := codePointLabel char
    utf8 := { bytes := utf8, hex := toHexString utf8, binary := toBinaryString utf8 }
    sjis := { bytes := sjis, hex := toHexString sjis, binary := toBinaryString sjis } }

/-- One step of the `chars.map(char => ...)` of src/utils/encoding.js; a
throw inside `toSJISArrayM` aborts with `none`. -/
def analyzeCharM (lib? : Option EncodingLib) (c : Char) : Option CharRecordM :=
  (toSJISArrayM lib? (String.singleton c)).map (buildRecordM (String.singleton c))

/-- `analyzeText` from src/utils/encoding.js.  With no try/catch around
the codec, a throw during any character's conversion propagates out of
the whole call (modelled as `none`). -/
def analyzeTextM (lib? : Option EncodingLib) (text : String) : Option (List CharRecordM) :=
  if text = "" then some []
  else text.data.mapM (analyzeCharM lib?)

/-- Field agreement between a src/utils/encoding.js record and a
src/unnamed/part_000 record: same character, code-point label and
universal-encoding views. -/
def agreeRecord (a : CharRecordM) (b : CharRecord) : Prop :=
  a.char = b.char ∧ a.codePoint = b.codePoint ∧ a.utf8.bytes = b.utf8.bytes
    ∧ a.utf8.hex = b.utf8.hex ∧ a.utf8.binary = b.utf8.binary

-- ==========================================
-- Re-parsing helpers for the formatting round-trip (§8.6 of the spec)
-- ==========================================

/-- Numeric value of one uppercase hexadecimal digit character. -/
def hexDigitVal (c : Char) : Nat :=
  if c.toNat ≤ 57 then c.toNat - 48 else c.toNat - 55

/-- Parse one space-free group as uppercase hexadecimal. -/
def parseHexGroup (s : String) : Nat :=
  s.data.foldl (fun a c => 16 * a + hexDigitVal c) 0

/-- Parse one space-free group as binary. -/
def parseBinGroup (s : String) : Nat :=
  s.data.foldl (fun a c => 2 * a + (c.toNat - 48)) 0

/-- Split a character list at each space (the groups of `join(' ')`). -/
def splitOnSpaceChars : List Char → List (List Char)
  | [] => [[]]
  | c :: rest =>
    if c = ' ' then [] :: splitOnSpaceChars rest
    else
      match splitOnSpaceChars rest with
      | g :: t => (c :: g) :: t
      | [] => [[c]]

/-- Split a string on single spaces. -/
def splitOnSpace (s : String) : List String :=
  (splitOnSpaceChars s.data).map String.mk

-- ==========================================
-- Helper lemmas: strings, join, split
-- ==========================================

theorem stringData_append (a b : String) : (a ++ b).data = a.data ++ b.data := rfl

theorem stringMk_data (s : String) : String.mk s.data = s := rfl

theorem foldlJoin_data (gs : List String) (acc : String) :
    (gs.foldl (fun a s => a ++ " " ++ s) acc).data
      = acc.data ++ gs.flatMap (fun t => ' ' :: t.data) := by
  induction gs generalizing acc with
  | nil => simp
  | cons g rest ih =>
    simp only [List.foldl_cons, List.flatMap_cons, ih, stringData_append]
    simp

theorem joinSpace_data (g : String) (gs : List String) :
    (joinSpace (g :: gs)).data = g.data ++ gs.flatMap (fun t => ' ' :: t.data) := by
  simp only [joinSpace, foldlJoin_data]

theorem splitOnSpaceChars_append (g l : List Char) (hg : ' ' ∉ g)
    (h : List Char) (t : List (List Char)) (hl : splitOnSpaceChars l = h :: t) :
    splitOnSpaceChars (g ++ l) = (g ++ h) :: t := by
  induction g with
  | nil => simpa using hl
  | cons c g ih =>
    have hc : ¬(c = ' ') := by
      intro e
      exact hg (e ▸ List.mem_cons_self c g)
    have hg' : ' ' ∉ g := fun m => hg (List.mem_cons_of_mem c m)
    simp only [List.cons_append, splitOnSpaceChars, if_neg hc]
    rw [List.append_eq, ih hg']

theorem splitOnSpaceChars_join (gs : List (List Char)) :
    ∀ g, ' ' ∉ g → (∀ x ∈ gs, ' ' ∉ x) →
      splitOnSpaceChars (g ++ gs.flatMap (fun t => ' ' :: t)) = g :: gs := by
  induction gs with
  | nil =>
    intro g hg _
    have := splitOnSpaceChars_append g [] hg [] [] rfl
    simpa using this
  | cons x rest ih =>
    intro g hg hgs
    have inner := ih x (hgs x (List.mem_cons_self x rest))
      (fun y hy => hgs y (List.mem_cons_of_mem x hy))
    have hsp : splitOnSpaceChars (' ' :: (x ++ rest.flatMap (fun t => ' ' :: t)))
        = [] :: (x :: rest) := by
      simp [splitOnSpaceChars, inner]
    have hmain := splitOnSpaceChars_append g
      (' ' :: (x ++ rest.flatMap (fun t => ' ' :: t))) hg [] (x :: rest) hsp
    simpa using hmain

set_option maxRecDepth 2000

theorem byteHex_roundTrip : ∀ b < 256, parseHexGroup (byteToHexStr b) = b := by
  decide

theorem byteBin_roundTrip : ∀ b < 256, parseBinGroup (byteToBinStr b) = b := by
  decide

theorem byteHex_props :
    ∀ b < 256, (byteToHexStr b).data.length = 2 ∧ ' ' ∉ (byteToHexStr b).data := by
  decide

theorem byteBin_props : ∀ b < 256, ' ' ∉ (byteToBinStr b).data := by
  decide

theorem flatMap_data_eq (l : List String) :
    l.flatMap (fun t => ' ' :: t.data)
      = (l.map String.data).flatMap (fun t => ' ' :: t) := by
  induction l with
  | nil => rfl
  | cons y ys ih => simp only [List.flatMap_cons, List.map_cons, ih]

theorem map_mk_data (l : List String) :
    l.map (fun s => String.mk s.data) = l := by
  induction l with
  | nil => rfl
  | cons y ys ih => simp only [List.map_cons, stringMk_data, ih]

theorem splitOnSpace_joinSpace (strs : List String) (hne : strs ≠ [])
    (h : ∀ x ∈ strs, ' ' ∉ x.data) :
    splitOnSpace (joinSpace strs) = strs := by
  cases strs with
  | nil => cases hne rfl
  | cons g rest =>
    have hgroups : ∀ x ∈ rest.map String.data, ' ' ∉ x := by
      intro x hx
      obtain ⟨y, hy, rfl⟩ := List.mem_map.1 hx
      exact h y (List.mem_cons_of_mem g hy)
    unfold splitOnSpace
    rw [joinSpace_data, flatMap_data_eq,
      splitOnSpaceChars_join (rest.map String.data) g.data
        (h g (List.mem_cons_self g rest)) hgroups]
    simp only [List.map_cons, List.map_map]
    rw [stringMk_data]
    have : (rest.map (String.mk ∘ String.data)) = rest.map (fun s => String.mk s.data) := rfl
    rw [this, map_mk_data]

theorem stringLength_data (s : String) : s.length = s.data.length := rfl

theorem hexTail_length (rest : List Nat) (h : ∀ b ∈ rest, b < 256) :
    ((rest.map byteToHexStr).flatMap (fun t => ' ' :: t.data)).length
      = 3 * rest.length := by
  induction rest with
  | nil => rfl
  | cons b r ih =>
    have hb := (byteHex_props b (h b (List.mem_cons_self b r))).1
    have ihr := ih (fun x hx => h x (List.mem_cons_of_mem b hx))
    simp only [List.map_cons, List.flatMap_cons, List.length_append,
      List.length_cons, hb, ihr]
    ring

-- ==========================================
-- Helper lemmas: analyzeText structure
-- ==========================================

theorem analyzeText_eq_map (lib? : Option EncodingLib) (s : String) :
    analyzeText lib? s = analyzeMap lib? 0 s.data := by
  unfold analyzeText
  split
  · rename_i hs
    subst hs
    rfl
  · rfl

theorem analyzeMap_length (lib? : Option EncodingLib) :
    ∀ i l, (analyzeMap lib? i l).length = l.length := by
  intro i l
  induction l generalizing i with
  | nil => rfl
  | cons c cs ih => simp [analyzeMap, ih]

theorem analyzeChar_char (lib? : Option EncodingLib) (i : Nat) (c : Char) :
    (analyzeChar lib? i c).char = String.singleton c := rfl

theorem analyzeChar_utf8 (lib? : Option EncodingLib) (i : Nat) (c : Char) :
    (analyzeChar lib? i c).utf8
      = { bytes := toUTF8Array (String.singleton c)
          byteCount := (toUTF8Array (String.singleton c)).length
          hex := toHexString (toUTF8Array (String.singleton c))
          binary := toBinaryString (toUTF8Array (String.singleton c)) } := rfl

theorem analyzeMap_map_char (lib? : Option EncodingLib) :
    ∀ i l, (analyzeMap lib? i l).map (fun r => r.char) = l.map String.singleton := by
  intro i l
  induction l generalizing i with
  | nil => rfl
  | cons c cs ih => simp [analyzeMap, analyzeChar_char, ih]

theorem analyzeMap_getD (lib? : Option EncodingLib) (d : CharRecord) (c0 : Char) :
    ∀ l i j, j < l.length →
      (analyzeMap lib? i l).getD j d = analyzeChar lib? (i + j) (l.getD j c0) := by
  intro l
  induction l with
  | nil =>
    intro i j h
    exact absurd h (Nat.not_lt_zero j)
  | cons c cs ih =>
    intro i j hj
    cases j with
    | zero => rfl
    | succ j' =>
      have hj' : j' < cs.length := Nat.lt_of_succ_lt_succ hj
      have step : (analyzeMap lib? i (c :: cs)).getD (j' + 1) d
          = (analyzeMap lib? (i + 1) cs).getD j' d := rfl
      rw [step, ih (i + 1) j' hj',
        show i + 1 + j' = i + (j' + 1) by omega]
      rfl

theorem stringJoin_foldl_data (l : List String) (acc : String) :
    (l.foldl (fun r s => r ++ s) acc).data = acc.data ++ l.flatMap String.data := by
  induction l generalizing acc with
  | nil => simp
  | cons g gs ih =>
    simp only [List.foldl_cons, List.flatMap_cons, ih, stringData_append,
      List.append_assoc]

theorem flatMap_singleton_data (l : List Char) :
    (l.map String.singleton).flatMap String.data = l := by
  induction l with
  | nil => rfl
  | cons c cs ih => simpa using ih

theorem join_map_singleton (l : List Char) :
    String.join (l.map String.singleton) = String.mk l := by
  have hdata : (String.join (l.map String.singleton)).data = l := by
    have h := stringJoin_foldl_data (l.map String.singleton) ""
    simp only [String.join, h]
    simpa using flatMap_singleton_data l
  calc String.join (l.map String.singleton)
      = String.mk (String.join (l.map String.singleton)).data := rfl
    _ = String.mk l := by rw [hdata]

theorem foldl_add_map (f : CharRecord → Nat) (l : List CharRecord) (acc : Nat) :
    l.foldl (fun a r => a + f r) acc = acc + (l.map f).sum := by
  induction l generalizing acc with
  | nil => simp
  | cons r rs ih => simp [ih, Nat.add_assoc]

theorem analyzeMap_utf8_byteCount (lib? : Option EncodingLib) :
    ∀ i l, ∀ r ∈ analyzeMap lib? i l, r.utf8.byteCount = r.utf8.bytes.length := by
  intro i l
  induction l generalizing i with
  | nil =>
    intro r h
    cases h
  | cons c cs ih =>
    intro r h
    rcases List.mem_cons.1 h with h' | h'
    · subst h'
      rfl
    · exact ih (i + 1) r h'

-- ==========================================
-- Claim theorems
-- ==========================================

/-- C4: `analyzeText` is total (it is a plain Lean function), the empty
string yields the empty record list and not an error, concatenating the
records' `char` fields in order reproduces the input exactly, and a
single emoji — one code point, a surrogate pair in UTF-16 — yields
exactly one record. -/
theorem claim_C4 (lib? : Option EncodingLib) (s : String) :
    analyzeText lib? "" = []
      ∧ String.join ((analyzeText lib? s).map (fun r => r.char)) = s
      ∧ (analyzeText lib? "🚀").length = 1 := by
  refine ⟨rfl, ?_, ?_⟩
  · rw [analyzeText_eq_map, analyzeMap_map_char, join_map_singleton, stringMk_data]
  · rw [analyzeText_eq_map, analyzeMap_length]
    decide

/-- C2 is false on the code: `analyzeText` splits its input with
`Array.from`, i.e. by code points, so the combining sequence U+0065
LATIN SMALL LETTER E followed by U+0301 COMBINING ACUTE ACCENT — one
user-perceived character — produces two records, not the single record
the claim requires. -/
theorem claim_C2_counterexample :
    (analyzeText none (String.mk ['e', Char.ofNat 0x301])).length = 2
      ∧ (analyzeText none (String.mk ['e', Char.ofNat 0x301])).length ≠ 1 := by
  rw [analyzeText_eq_map, analyzeMap_length]
  constructor
  · decide
  · decide

/-- C2 amended: `analyzeText` segments its input by Unicode code points,
one record per code point in order — a single astral code point such as
an emoji is one record, but a combining sequence of several code points
is split into one record per code point. -/
theorem claim_C2_amended (lib? : Option EncodingLib) (s : String) :
    (analyzeText lib? s).map (fun r => r.char) = s.data.map String.singleton := by
  rw [analyzeText_eq_map, analyzeMap_map_char]

/-- C6: the aggregate universal byte count (`totalUtf8`) equals the sum of
the records' UTF-8 byte-sequence lengths, and the whole-string
legacy-representability flag (`canFullSjis`) is false exactly when some
record has `isValid = false`. -/
theorem claim_C6 (lib? : Option EncodingLib) (s : String) :
    totalUtf8 (analyzeText lib? s)
        = ((analyzeText lib? s).map (fun r => r.utf8.bytes.length)).sum
      ∧ (canFullSjis (analyzeText lib? s) = false
          ↔ ∃ r ∈ analyzeText lib? s, r.sjis.isValid = false) := by
  constructor
  · rw [totalUtf8, foldl_add_map]
    simp only [Nat.zero_add]
    congr 1
    apply List.map_congr_left
    intro r hr
    rw [analyzeText_eq_map] at hr
    exact analyzeMap_utf8_byteCount lib? 0 s.data r hr
  · simp only [canFullSjis, List.all_eq_false, Bool.not_eq_true]

/-- C5: for byte sequences with elements in 0..255, `toHexString` and
`toBinaryString` render each byte as a fixed-width space-separated group
such that splitting the output on spaces and parsing each group (as
uppercase hexadecimal, resp. binary) reproduces the byte sequence
exactly; for non-empty input the hex string has length `3 * n - 1`; both
render the empty sequence as the empty string. -/
theorem claim_C5 (bs : List Nat) (h : ∀ b ∈ bs, b < 256) :
    (bs ≠ [] →
        (splitOnSpace (toHexString bs)).map parseHexGroup = bs
          ∧ (splitOnSpace (toBinaryString bs)).map parseBinGroup = bs
          ∧ (toHexString bs).length = 3 * bs.length - 1)
      ∧ toHexString [] = "" ∧ toBinaryString [] = "" := by
  refine ⟨?_, rfl, rfl⟩
  intro hne
  have hmapne : bs.map byteToHexStr ≠ [] := by
    simpa using hne
  have hmapne2 : bs.map byteToBinStr ≠ [] := by
    simpa using hne
  have hsplitHex : splitOnSpace (toHexString bs) = bs.map byteToHexStr := by
    rw [toHexString]
    apply splitOnSpace_joinSpace _ hmapne
    intro x hx
    obtain ⟨b, hb, rfl⟩ := List.mem_map.1 hx
    exact (byteHex_props b (h b hb)).2
  have hsplitBin : splitOnSpace (toBinaryString bs) = bs.map byteToBinStr := by
    rw [toBinaryString]
    apply splitOnSpace_joinSpace _ hmapne2
    intro x hx
    obtain ⟨b, hb, rfl⟩ := List.mem_map.1 hx
    exact byteBin_props b (h b hb)
  refine ⟨?_, ?_, ?_⟩
  · rw [hsplitHex, List.map_map]
    calc bs.map (parseHexGroup ∘ byteToHexStr) = bs.map id := by
          apply List.map_congr_left
          intro b hb
          exact byteHex_roundTrip b (h b hb)
      _ = bs := List.map_id bs
  · rw [hsplitBin, List.map_map]
    calc bs.map (parseBinGroup ∘ byteToBinStr) = bs.map id := by
          apply List.map_congr_left
          intro b hb
          exact byteBin_roundTrip b (h b hb)
      _ = bs := List.map_id bs
  · cases bs with
    | nil => cases hne rfl
    | cons b rest =>
      have hb := (byteHex_props b (h b (List.mem_cons_self b rest))).1
      have htail := hexTail_length rest
        (fun x hx => h x (List.mem_cons_of_mem b hx))
      rw [stringLength_data, toHexString, List.map_cons, joinSpace_data,
        List.length_append, hb, htail, List.length_cons]
      omega

/-- Concrete check of C5 at the byte sequence `[0x3, 0xAB, 0xFF]`,
discharging its range hypothesis. -/
theorem claim_C5_witness :
    (([3, 0xAB, 0xFF] : List Nat) ≠ [] →
        (splitOnSpace (toHexString [3, 0xAB, 0xFF])).map parseHexGroup = [3, 0xAB, 0xFF]
          ∧ (splitOnSpace (toBinaryString [3, 0xAB, 0xFF])).map parseBinGroup
              = [3, 0xAB, 0xFF]
          ∧ (toHexString [3, 0xAB, 0xFF]).length = 3 * ([3, 0xAB, 0xFF] : List Nat).length - 1)
      ∧ toHexString [] = "" ∧ toBinaryString [] = "" :=
  claim_C5 [3, 0xAB, 0xFF] (by decide)

/-- A small concrete instance of the legacy codec exhibiting the classic
wave-dash pitfall of Shift-JIS tables: U+FF5E FULLWIDTH TILDE encodes to
the double-byte sequence 81 60, which decodes back to U+301C WAVE DASH —
a non-identity round-trip on a two-byte (non-substitute) encoding. -/
def waveDashLib : EncodingLib where
  stringToCode := fun s => s.data.map Char.toNat
  convertToSJIS := fun codes =>
    if codes = [0xFF5E] then some [0x81, 0x60] else none
  convertFromSJIS := fun bs =>
    if bs = [0x81, 0x60] then some (String.singleton (Char.ofNat 0x301C)) else none
  convertFromUTF8 := fun _ => none

/-- C1 is false on the code: with the codec available and U+FF5E encoded
to the bytes 81 60, the record's `isValid` flag is `true` even though
decoding those bytes back yields U+301C, not the original character.
The source computes the round-trip inside `toSJISArray` but discards the
comparison; `isValid` is decided in `analyzeText` purely from the byte
count and byte value (a single 0x3F byte for a character other than
`?`), the exact opposite of the claim's second sentence. -/
theorem claim_C1_counterexample :
    toSJISArray (some waveDashLib) (String.singleton (Char.ofNat 0xFF5E))
        = some [0x81, 0x60]
      ∧ (analyzeText (some waveDashLib) (String.singleton (Char.ofNat 0xFF5E))).map
          (fun r => r.sjis.isValid) = [true]
      ∧ waveDashLib.convertFromSJIS [0x81, 0x60]
          = some (String.singleton (Char.ofNat 0x301C))
      ∧ String.singleton (Char.ofNat 0x301C) ≠ String.singleton (Char.ofNat 0xFF5E) := by
  refine ⟨by decide, ?_, by decide, by decide⟩
  decide

/-- C1 amended: for a character the available codec converts without
throwing, the record surfaces the produced bytes, and `isValid` is true
iff the bytes are not the single substitute byte 0x3F while the character
differs from `?`; the round-trip decode is performed (a throw there
yields the unavailable state) but its comparison result never affects
`isValid`. -/
theorem claim_C1_amended (lib : EncodingLib) (c : Char) (bs : List Nat)
    (h : toSJISArray (some lib) (String.singleton c) = some bs) :
    (analyzeText (some lib) (String.singleton c)).map
        (fun r => (r.sjis.bytes, r.sjis.isValid))
      = [(bs, !(bs.length == 1 && bs.getD 0 0 == 0x3F
          && String.singleton c != "?"))] := by
  rw [analyzeText_eq_map]
  have hstep : analyzeMap (some lib) 0 (String.singleton c).data
      = [analyzeChar (some lib) 0 c] := rfl
  rw [hstep]
  simp only [List.map_cons, List.map_nil, analyzeChar, buildRecord, h,
    Option.getD_some]

/-- Concrete check of C1's amended statement at U+FF5E with
`waveDashLib`, discharging the conversion hypothesis. -/
theorem claim_C1_witness :
    (analyzeText (some waveDashLib) (String.singleton (Char.ofNat 0xFF5E))).map
        (fun r => (r.sjis.bytes, r.sjis.isValid))
      = [(([0x81, 0x60] : List Nat),
          !(([0x81, 0x60] : List Nat).length == 1
            && ([0x81, 0x60] : List Nat).getD 0 0 == 0x3F
            && String.singleton (Char.ofNat 0xFF5E) != "?"))] :=
  claim_C1_amended waveDashLib (Char.ofNat 0xFF5E) [0x81, 0x60] (by decide)

/-- Default record used with `List.getD` when indexing analysis results. -/
def defaultRecord : CharRecord := buildRecord 0 "" none

/-- C3: when the codec is unavailable or throws on character `i` of the
input (`toSJISArray` yields `none`), that record has `isValid = false`,
empty legacy bytes and zero legacy byte count, while its `utf8` view is
still the full universal-encoding analysis of the character; no exception
escapes `analyzeText` (it is a total Lean function by construction); and
any record whose own character's conversion result is the same under a
second codec state is itself unchanged, so one character's failure never
disturbs the other records. -/
theorem claim_C3 (lib? lib?' : Option EncodingLib) (s : String) (i : Nat)
    (hi : i < s.data.length)
    (hfail : toSJISArray lib? (String.singleton (s.data.getD i (Char.ofNat 0))) = none) :
    ((analyzeText lib? s).getD i defaultRecord).sjis.isValid = false
      ∧ ((analyzeText lib? s).getD i defaultRecord).sjis.bytes = []
      ∧ ((analyzeText lib? s).getD i defaultRecord).sjis.byteCount = 0
      ∧ ((analyzeText lib? s).getD i defaultRecord).utf8
          = { bytes := toUTF8Array (String.singleton (s.data.getD i (Char.ofNat 0)))
              byteCount :=
                (toUTF8Array (String.singleton (s.data.getD i (Char.ofNat 0)))).length
              hex := toHexString (toUTF8Array (String.singleton (s.data.getD i (Char.ofNat 0))))
              binary :=
                toBinaryString (toUTF8Array (String.singleton (s.data.getD i (Char.ofNat 0)))) }
      ∧ (∀ j, j < s.data.length →
          toSJISArray lib? (String.singleton (s.data.getD j (Char.ofNat 0)))
            = toSJISArray lib?' (String.singleton (s.data.getD j (Char.ofNat 0))) →
          (analyzeText lib? s).getD j defaultRecord
            = (analyzeText lib?' s).getD j defaultRecord) := by
  have hrec : (analyzeMap lib? 0 s.data).getD i defaultRecord
      = buildRecord i (String.singleton (s.data.getD i (Char.ofNat 0))) none := by
    rw [analyzeMap_getD lib? defaultRecord (Char.ofNat 0) s.data 0 i hi]
    simp only [Nat.zero_add]
    unfold analyzeChar
    rw [hfail]
  rw [analyzeText_eq_map, hrec]
  refine ⟨rfl, rfl, rfl, rfl, ?_⟩
  intro j hj hsame
  rw [analyzeText_eq_map,
    analyzeMap_getD lib? defaultRecord (Char.ofNat 0) s.data 0 j hj,
    analyzeMap_getD lib?' defaultRecord (Char.ofNat 0) s.data 0 j hj]
  unfold analyzeChar
  rw [hsame]

/-- Concrete check of C3 with the codec absent on input "あA" at index 0,
discharging both hypotheses. -/
theorem claim_C3_witness :
    ((analyzeText none "あA").getD 0 defaultRecord).sjis.isValid = false
      ∧ ((analyzeText none "あA").getD 0 defaultRecord).sjis.bytes = []
      ∧ ((analyzeText none "あA").getD 0 defaultRecord).sjis.byteCount = 0
      ∧ ((analyzeText none "あA").getD 0 defaultRecord).utf8
          = { bytes := toUTF8Array (String.singleton (("あA" : String).data.getD 0 (Char.ofNat 0)))
              byteCount :=
                (toUTF8Array (String.singleton (("あA" : String).data.getD 0 (Char.ofNat 0)))).length
              hex := toHexString
                (toUTF8Array (String.singleton (("あA" : String).data.getD 0 (Char.ofNat 0))))
              binary := toBinaryString
                (toUTF8Array (String.singleton (("あA" : String).data.getD 0 (Char.ofNat 0)))) }
      ∧ (∀ j, j < ("あA" : String).data.length →
          toSJISArray none (String.singleton (("あA" : String).data.getD j (Char.ofNat 0)))
            = toSJISArray none (String.singleton (("あA" : String).data.getD j (Char.ofNat 0))) →
          (analyzeText none "あA").getD j defaultRecord
            = (analyzeText none "あA").getD j defaultRecord) :=
  claim_C3 none none "あA" 0 (by decide) (by decide)

/-- A small concrete instance of the external legacy codec
(`window.Encoding`) mirroring its documented behaviour on the characters
used in the concrete checks: "あ" maps to the double-byte sequence 82 A0
and back, "A" and "?" map to their ASCII bytes, and the emoji "🚀",
which the legacy encoding cannot represent, encodes to the single
substitute byte 3F, which decodes to "?". -/
def demoLib : EncodingLib where
  stringToCode := fun s => s.data.map Char.toNat
  convertToSJIS := fun codes =>
    if codes = [0x3042] then some [0x82, 0xA0]
    else if codes = [0x41] then some [0x41]
    else if codes = [0x3F] then some [0x3F]
    else if codes = [0x1F680] then some [0x3F]
    else none
  convertFromSJIS := fun bs =>
    if bs = [0x82, 0xA0] then some "あ"
    else if bs = [0x41] then some "A"
    else if bs = [0x3F] then some "?"
    else none
  convertFromUTF8 := fun _ => none

/-- C7: when the available codec encodes the emoji "🚀" to the single
substitute byte 3F (the behaviour the source comments document for the
real library), the record's legacy byte sequence is non-empty while its
`isValid` flag is false — byte presence does not imply validity. -/
theorem claim_C7 (lib : EncodingLib)
    (h : toSJISArray (some lib) "🚀" = some [0x3F]) :
    (analyzeText (some lib) "🚀").map (fun r => (r.sjis.bytes, r.sjis.isValid))
        = [([0x3F], false)]
      ∧ ([0x3F] : List Nat) ≠ [] := by
  refine ⟨?_, by decide⟩
  rw [analyzeText_eq_map]
  have hstep : analyzeMap (some lib) 0 ("🚀" : String).data
      = [analyzeChar (some lib) 0 '🚀'] := rfl
  rw [hstep]
  have hsing : String.singleton '🚀' = "🚀" := rfl
  simp only [List.map_cons, List.map_nil, analyzeChar, hsing, h, buildRecord,
    Option.getD_some]
  decide

/-- Concrete check of C7 with `demoLib`, discharging its conversion
hypothesis. -/
theorem claim_C7_witness :
    (analyzeText (some demoLib) "🚀").map (fun r => (r.sjis.bytes, r.sjis.isValid))
        = [([0x3F], false)]
      ∧ ([0x3F] : List Nat) ≠ [] :=
  claim_C7 demoLib (by decide)

/-- C8: `analyzeText "あ"` yields exactly one record with code-point
label "U+3042" (uppercase, zero-padded to four hex digits), UTF-8 hex
"E3 81 82", and — when the codec is present and converts "あ" as the
real library does — legacy hex "82 A0" with `isValid = true`; with the
codec absent the record's legacy flag is false and its legacy bytes are
empty. -/
theorem claim_C8 (lib : EncodingLib)
    (h1 : lib.stringToCode "あ" = [0x3042])
    (h2 : lib.convertToSJIS [0x3042] = some [0x82, 0xA0])
    (h3 : lib.convertFromSJIS [0x82, 0xA0] = some "あ") :
    (analyzeText (some lib) "あ").map
        (fun r => (r.codePoint, r.utf8.hex, r.sjis.hex, r.sjis.isValid))
        = [("U+3042", "E3 81 82", "82 A0", true)]
      ∧ (analyzeText none "あ").map (fun r => (r.sjis.isValid, r.sjis.bytes))
        = [(false, ([] : List Nat))] := by
  constructor
  · have hts : toSJISArray (some lib) "あ" = some [0x82, 0xA0] := by
      simp [toSJISArray, h1, h2, h3]
    rw [analyzeText_eq_map]
    have hstep : analyzeMap (some lib) 0 ("あ" : String).data
        = [analyzeChar (some lib) 0 'あ'] := rfl
    rw [hstep]
    have hsing : String.singleton 'あ' = "あ" := rfl
    simp only [List.map_cons, List.map_nil, analyzeChar, hsing, hts, buildRecord,
      Option.getD_some]
    decide
  · decide

/-- Concrete check of C8 with `demoLib`, discharging its three codec
hypotheses. -/
theorem claim_C8_witness :
    (analyzeText (some demoLib) "あ").map
        (fun r => (r.codePoint, r.utf8.hex, r.sjis.hex, r.sjis.isValid))
        = [("U+3042", "E3 81 82", "82 A0", true)]
      ∧ (analyzeText none "あ").map (fun r => (r.sjis.isValid, r.sjis.bytes))
        = [(false, ([] : List Nat))] :=
  claim_C8 demoLib (by decide) (by decide) (by decide)

/-- C9 is false on the code for the unavailable-codec branch: with
`window.Encoding` absent and the non-empty input "A", the simulator's
effect returns early and both direction outputs keep their initial blank
value "" — exactly the blank output the claim forbids — rather than any
explicit "simulation unavailable" marker. -/
theorem claim_C9_counterexample :
    mojibakeSimulator none "A" = ("", "")
      ∧ ("" : String) ≠ "（Shift-JIS非対応）"
      ∧ ("" : String) ≠ "（変換エラー）" :=
  ⟨rfl, by decide, by decide⟩

/-- C9 amended: with the codec unavailable both directions stay blank
(no crash, but no explicit marker either); with the codec available, a
decode throw in either direction is caught and reported as the
conversion-error string, and an unobtainable or empty legacy byte
sequence makes the second direction report the explicit non-representable
marker. -/
theorem claim_C9_amended (lib : EncodingLib) (input : String) (h : input ≠ "") :
    mojibakeSimulator none input = ("", "")
      ∧ (lib.convertFromSJIS (toUTF8Array input) = none →
          (mojibakeSimulator (some lib) input).1 = "（変換エラー）")
      ∧ (∀ bs, toSJISArray (some lib) input = some bs → bs ≠ [] →
          lib.convertFromUTF8 bs = none →
          (mojibakeSimulator (some lib) input).2 = "（変換エラー）")
      ∧ (toSJISArray (some lib) input = some [] →
          (mojibakeSimulator (some lib) input).2 = "（Shift-JIS非対応）")
      ∧ (toSJISArray (some lib) input = none →
          (mojibakeSimulator (some lib) input).2 = "（Shift-JIS非対応）") := by
  refine ⟨rfl, ?_, ?_, ?_, ?_⟩
  · intro ha
    simp [mojibakeSimulator, h, ha]
  · intro bs hbs hne hdec
    have hpos : 0 < bs.length := List.length_pos.2 hne
    simp [mojibakeSimulator, h, hbs, hdec, hpos]
  · intro hempty
    simp [mojibakeSimulator, h, hempty]
  · intro hnone
    simp [mojibakeSimulator, h, hnone]

/-- A codec instance whose decoders throw on the byte sequences used in
the C9 check: it encodes "あ" to 82 A0 (decoding those bytes back to
"あ"), but throws when asked to decode the UTF-8 bytes of "あ" as SJIS
or the SJIS bytes as UTF-8. -/
def throwingLib : EncodingLib where
  stringToCode := fun s => s.data.map Char.toNat
  convertToSJIS := fun codes =>
    if codes = [0x3042] then some [0x82, 0xA0] else none
  convertFromSJIS := fun bs =>
    if bs = [0x82, 0xA0] then some "あ" else none
  convertFromUTF8 := fun _ => none

/-- A codec instance that converts "あ" to an empty legacy byte array
(and decodes the empty array back without throwing), exercising the
source's `sjisBytes.length > 0` else-branch. -/
def emptySjisLib : EncodingLib where
  stringToCode := fun s => s.data.map Char.toNat
  convertToSJIS := fun _ => some []
  convertFromSJIS := fun bs => if bs = [] then some "" else none
  convertFromUTF8 := fun _ => none

/-- Concrete check of C9's amended statement on input "あ": with
`throwingLib` both decode directions report the conversion-error string,
and with `emptySjisLib` (empty legacy byte array) the second direction
reports the non-representable marker; the non-empty-input hypothesis and
the inner conversion hypotheses are discharged concretely. -/
theorem claim_C9_witness :
    mojibakeSimulator none "あ" = ("", "")
      ∧ (mojibakeSimulator (some throwingLib) "あ").1 = "（変換エラー）"
      ∧ (mojibakeSimulator (some throwingLib) "あ").2 = "（変換エラー）"
      ∧ (mojibakeSimulator (some emptySjisLib) "あ").2 = "（Shift-JIS非対応）" :=
  ⟨(claim_C9_amended throwingLib "あ" (by decide)).1,
   (claim_C9_amended throwingLib "あ" (by decide)).2.1 (by decide),
   (claim_C9_amended throwingLib "あ" (by decide)).2.2.1 [0x82, 0xA0]
     (by decide) (by decide) (by decide),
   (claim_C9_amended emptySjisLib "あ" (by decide)).2.2.2.1 (by decide)⟩

theorem analyzeCharM_agree (lib? : Option EncodingLib) (i : Nat) (c : Char)
    (rm : CharRecordM) (h : analyzeCharM lib? c = some rm) :
    agreeRecord rm (analyzeChar lib? i c) := by
  unfold analyzeCharM at h
  cases hts : toSJISArrayM lib? (String.singleton c) with
  | none =>
    rw [hts] at h
    cases h
  | some bs =>
    rw [hts] at h
    simp at h
    subst h
    exact ⟨rfl, rfl, rfl, rfl, rfl⟩

theorem mapM_agree (lib? : Option EncodingLib) :
    ∀ l i rs, l.mapM (analyzeCharM lib?) = some rs →
      List.Forall₂ agreeRecord rs (analyzeMap lib? i l) := by
  intro l
  induction l with
  | nil =>
    intro i rs h
    simp only [List.mapM_nil, pure, Option.some.injEq] at h
    subst h
    exact List.Forall₂.nil
  | cons c cs ih =>
    intro i rs h
    rw [List.mapM_cons] at h
    cases hc : analyzeCharM lib? c with
    | none =>
      rw [hc] at h
      simp at h
    | some r =>
      rw [hc] at h
      cases hcs : cs.mapM (analyzeCharM lib?) with
      | none =>
        rw [hcs] at h
        simp at h
      | some rest =>
        rw [hcs] at h
        simp at h
        subst h
        exact List.Forall₂.cons (analyzeCharM_agree lib? i c r hc)
          (ih (i + 1) rest hcs)

/-- C10: whenever the standalone module's `analyzeTextM`
(src/utils/encoding.js) returns a record list, it has the same length as
the inlined implementation's output on the same input and codec state,
and corresponding records agree on the `char`, `codePoint` and `utf8`
(bytes, hex, binary) fields — the two differ only in the legacy fields
and extra metadata. -/
theorem claim_C10 (lib? : Option EncodingLib) (text : String)
    (rs : List CharRecordM) (h : analyzeTextM lib? text = some rs) :
    rs.length = (analyzeText lib? text).length
      ∧ List.Forall₂ agreeRecord rs (analyzeText lib? text) := by
  have hf : List.Forall₂ agreeRecord rs (analyzeText lib? text) := by
    rw [analyzeText_eq_map]
    unfold analyzeTextM at h
    by_cases ht : text = ""
    · rw [if_pos ht] at h
      simp only [Option.some.injEq] at h
      subst h
      rw [ht]
      exact List.Forall₂.nil
    · rw [if_neg ht] at h
      exact mapM_agree lib? text.data 0 rs h
  exact ⟨hf.length_eq, hf⟩

/-- Concrete check of C10 with the codec absent on input "A",
discharging the hypothesis that the standalone module returned a record
list. -/
theorem claim_C10_witness :
    ([{ char := "A", codePoint := "U+0041",
        utf8 := { bytes := [0x41], hex := "41", binary := "01000001" },
        sjis := { bytes := [], hex := "", binary := "" } }] : List CharRecordM).length
        = (analyzeText none "A").length
      ∧ List.Forall₂ agreeRecord
          [{ char := "A", codePoint := "U+0041",
             utf8 := { bytes := [0x41], hex := "41", binary := "01000001" },
             sjis := { bytes := [], hex := "", binary := "" } }]
          (analyzeText none "A") :=
  claim_C10 none "A"
    [{ char := "A", codePoint := "U+0041",
       utf8 := { bytes := [0x41], hex := "41", binary := "01000001" },
       sjis := { bytes := [], hex := "", binary := "" } }]
    (by decide)
